import Mathlib

/-!
Verification of the v-content-gap-analysis ingestion-and-gap-detection core.

The Python sources are shallowly embedded as Lean definitions:

* `app/embeddings/comparer.py`  — `find_content_gaps` (cosine similarity is an
  external library call, so the similarity function is a parameter `sim`);
* `app/utils/aio.py`            — `fetch_url` retry loop and `fetch_urls_batch`
  (the event at each attempt is given by an oracle; `asyncio.sleep` is recorded
  as the list of waits performed);
* `app/embeddings/generator.py` — `generate_embeddings_batch` with its inner
  `process_batch` (the embedding service is an oracle per batch attempt;
  vectors are lists of reals, L2-normalized exactly as the source);
* `app/processing/chunker.py`   — `chunk_text` token loop and its word-based
  fallback (the tokenizer is an external collaborator, modelled as a total
  pair of functions `enc`/`dec`);
* `app/analysis/gap_detector.py` — `detect_missing_pages` and
  `detect_metadata_gaps` (the SQL queries are modelled relationally: any row
  list satisfying the query contract — filter, DISTINCT, ORDER BY — is
  admitted, and the Python post-processing loops are embedded as functions
  of those rows).

Python loops that can raise or diverge are embedded with explicit `Except`
results or fuel; fuel is always instantiated large enough that the theorems
below show it is never exhausted under the stated hypotheses.
-/

/-! ### comparer.py : find_content_gaps -/

/-- One element of the list built by `find_content_gaps` (comparer.py line 156). -/
structure GapRecord where
  competitor_url : String
  closest_match_url : String
  similarity_score : ℚ
  gap_type : String

deriving instance DecidableEq for GapRecord

/-- Body of the `for comp_id, comp_emb, comp_url in competitor_embeddings` loop of
`find_content_gaps` (comparer.py lines 143-161).  `sim` stands for
`compute_similarity` (a call into the external cosine-similarity routine).
`similarities.index(max_similarity)` is `List.indexOf`, the first index attaining
the maximum; `primary_embeddings[max_idx]` is total in the source because the
index is in range, so the `getD` default is never used. -/
def gapForCompetitor {α : Type} (sim : α → α → ℚ) (primary_embeddings : List (Nat × α × String))
    (threshold : ℚ) (c : Nat × α × String) : Option GapRecord :=
  let similarities := primary_embeddings.map (fun p => sim c.2.1 p.2.1)
  match similarities.max? with
  | none => none
  | some max_similarity =>
    let max_idx := similarities.indexOf max_similarity
    let closest_url := ((primary_embeddings[max_idx]?).map (fun p => p.2.2)).getD ""
    if max_similarity < threshold then
      some { competitor_url := c.2.2, closest_match_url := closest_url,
             similarity_score := max_similarity, gap_type := "missing_content" }
    else none

/-- `find_content_gaps` (comparer.py lines 119-164): emits at most one gap per
competitor tuple, and nothing when the primary embedding list is empty. -/
def find_content_gaps {α : Type} (sim : α → α → ℚ)
    (primary_embeddings competitor_embeddings : List (Nat × α × String))
    (threshold : ℚ) : List GapRecord :=
  if primary_embeddings.isEmpty then []
  else competitor_embeddings.filterMap (gapForCompetitor sim primary_embeddings threshold)

/-! ### utils/aio.py : fetch_url and fetch_urls_batch -/

/-- What one attempt of `session.get` inside `fetch_url` can observe: an HTTP
status with a body, or one of the three caught exception classes
(`asyncio.TimeoutError`, `aiohttp.ClientError`, any other `Exception`). -/
inductive FetchEvent where
  | status (code : Nat) (body : String)
  | timedOut
  | clientException
  | unexpected

deriving instance DecidableEq for FetchEvent

/-- Result of one `fetch_url` call: the returned value, the `asyncio.sleep`
waits performed in order, and the number of attempts consumed. -/
structure FetchOutcome where
  result : Option String
  waits : List ℚ
  attemptsUsed : Nat

deriving instance DecidableEq for FetchOutcome

/-- `MAX_RETRY_WAIT` (aio.py line 15). -/
def MAX_RETRY_WAIT : ℚ := 60

/-- Wait after an HTTP 429: `min(backoff_base ** (attempt + 2), MAX_RETRY_WAIT)`
(aio.py line 97). -/
def rateLimitWait (backoff_base : ℚ) (attempt : Nat) : ℚ :=
  min (backoff_base ^ (attempt + 2)) MAX_RETRY_WAIT

/-- Wait at the bottom of the retry loop, used for 5xx, timeouts and client
errors: `min(backoff_base ** attempt, MAX_RETRY_WAIT)` (aio.py line 151). -/
def serverErrorWait (backoff_base : ℚ) (attempt : Nat) : ℚ :=
  min (backoff_base ^ attempt) MAX_RETRY_WAIT

/-- The `for attempt in range(retry_attempts)` loop of `fetch_url`
(aio.py lines 86-152).  `oracle attempt` is what that attempt observes.  The
fuel argument counts the remaining attempts; `fetch_url` instantiates it so
that it equals `retry_attempts` exactly.  Branches mirror the source:
status 200 returns the body; 429 sleeps the longer backoff and `continue`s
(skipping the bottom backoff); 5xx falls through to the bottom backoff, which
only sleeps when attempts remain; any other status returns `None` at once;
timeouts and client errors fall through to the bottom backoff; an unexpected
exception returns `None` at once. -/
def fetch_url_go (oracle : Nat → FetchEvent) (retry_attempts : Nat) (backoff_base : ℚ) :
    Nat → Nat → FetchOutcome
  | _, 0 => ⟨none, [], 0⟩
  | attempt, fuel + 1 =>
    match oracle attempt with
    | .status code body =>
      if code = 200 then ⟨some body, [], 1⟩
      else if code = 429 then
        let rest := fetch_url_go oracle retry_attempts backoff_base (attempt + 1) fuel
        ⟨rest.result, rateLimitWait backoff_base attempt :: rest.waits, rest.attemptsUsed + 1⟩
      else if 500 ≤ code then
        if attempt < retry_attempts - 1 then
          let rest := fetch_url_go oracle retry_attempts backoff_base (attempt + 1) fuel
          ⟨rest.result, serverErrorWait backoff_base attempt :: rest.waits,
            rest.attemptsUsed + 1⟩
        else
          let rest := fetch_url_go oracle retry_attempts backoff_base (attempt + 1) fuel
          ⟨rest.result, rest.waits, rest.attemptsUsed + 1⟩
      else ⟨none, [], 1⟩
    | .timedOut =>
      if attempt < retry_attempts - 1 then
        let rest := fetch_url_go oracle retry_attempts backoff_base (attempt + 1) fuel
        ⟨rest.result, serverErrorWait backoff_base attempt :: rest.waits, rest.attemptsUsed + 1⟩
      else
        let rest := fetch_url_go oracle retry_attempts backoff_base (attempt + 1) fuel
        ⟨rest.result, rest.waits, rest.attemptsUsed + 1⟩
    | .clientException =>
      if attempt < retry_attempts - 1 then
        let rest := fetch_url_go oracle retry_attempts backoff_base (attempt + 1) fuel
        ⟨rest.result, serverErrorWait backoff_base attempt :: rest.waits, rest.attemptsUsed + 1⟩
      else
        let rest := fetch_url_go oracle retry_attempts backoff_base (attempt + 1) fuel
        ⟨rest.result, rest.waits, rest.attemptsUsed + 1⟩
    | .unexpected => ⟨none, [], 1⟩

/-- `fetch_url` (aio.py lines 62-163): run the retry loop from attempt 0.
Every exception class is caught inside the loop, so the call always returns a
value (`Option String`) and never propagates an exception. -/
def fetch_url (oracle : Nat → FetchEvent) (retry_attempts : Nat) (backoff_base : ℚ) :
    FetchOutcome :=
  fetch_url_go oracle retry_attempts backoff_base 0 retry_attempts

/-- Python-dict insertion: an existing key keeps its position and gets the new
value, a new key is appended. -/
def dictInsert (m : List (String × Option String)) (k : String) (v : Option String) :
    List (String × Option String) :=
  if m.any (fun p => p.1 == k) then
    m.map (fun p => if p.1 == k then (k, v) else p)
  else m ++ [(k, v)]

/-- `fetch_urls_batch` (aio.py lines 166-215): gather one `fetch_url` result per
URL and build the `results` dict.  `oracles url` is the per-URL attempt oracle. -/
def fetch_urls_batch (oracles : String → Nat → FetchEvent) (urls : List String)
    (retry_attempts : Nat) (backoff_base : ℚ) : List (String × Option String) :=
  urls.foldl
    (fun results url =>
      dictInsert results url (fetch_url (oracles url) retry_attempts backoff_base).result)
    []

/-! ### embeddings/generator.py : normalization and generate_embeddings_batch -/

/-- `EPSILON` (generator.py line 11). -/
noncomputable def EPSILON : ℝ := 1e-10

/-- `np.linalg.norm(embedding)`: the Euclidean norm of the vector. -/
noncomputable def l2Norm (v : List ℝ) : ℝ :=
  Real.sqrt ((v.map (fun x => x ^ 2)).sum)

/-- `embedding / (np.linalg.norm(embedding) + EPSILON)`
(generator.py lines 51 and 137). -/
noncomputable def normalizeEmbedding (v : List ℝ) : List ℝ :=
  v.map (fun x => x / (l2Norm v + EPSILON))

/-- What one attempt of `client.embeddings.create` inside `process_batch` can
observe: a response carrying one vector per submitted text, or one of the
caught exception classes. -/
inductive EmbedEvent where
  | success (vectors : List (List ℝ))
  | rateLimited
  | apiError
  | timedOut
  | unexpected

/-- `valid_batch = [(idx, text) for idx, text in enumerate(batch_texts) if text and text.strip()]`
(generator.py line 119).  Python truthiness of `text and text.strip()` is
equivalent to the stripped text being nonempty. -/
def validBatch (batch_texts : List String) : List (Nat × String) :=
  batch_texts.enum.filter (fun p => p.2.trim != "")

/-- The placement loop `for idx, embedding_data in zip(indices, response.data)`
(generator.py lines 133-138): start from `[None] * len(batch_texts)` and set
the normalized vector at each valid index. -/
noncomputable def placeEmbeddings (batchLen : Nat) (pairs : List (Nat × List ℝ)) :
    List (Option (List ℝ)) :=
  pairs.foldl (fun acc p => acc.set p.1 (some (normalizeEmbedding p.2)))
    (List.replicate batchLen none)

/-- The `for attempt in range(max_retries)` loop of `process_batch`
(generator.py lines 124-171).  `api attempt` is what that attempt observes.
A success places the vectors; rate limits, API errors and timeouts retry while
attempts remain and otherwise degrade to all-`None`; an unexpected exception
degrades at once.  The second component records the texts submitted to the
service by each attempt that reached it. -/
noncomputable def process_batch_go (api : Nat → EmbedEvent) (max_retries : Nat)
    (batch_texts : List String) (valid : List (Nat × String)) :
    Nat → Nat → List (Option (List ℝ)) × List (List String)
  | _, 0 => (List.replicate batch_texts.length none, [])
  | attempt, fuel + 1 =>
    match api attempt with
    | .success vectors =>
      (placeEmbeddings batch_texts.length ((valid.map Prod.fst).zip vectors),
        [valid.map Prod.snd])
    | .unexpected =>
      (List.replicate batch_texts.length none, [valid.map Prod.snd])
    | _ =>
      if attempt < max_retries - 1 then
        let rest := process_batch_go api max_retries batch_texts valid (attempt + 1) fuel
        (rest.1, valid.map Prod.snd :: rest.2)
      else (List.replicate batch_texts.length none, [valid.map Prod.snd])

/-- `process_batch` (generator.py lines 115-171): filter out empty texts, return
all-`None` without any service call when nothing valid remains, otherwise run
the retry loop. -/
noncomputable def process_batch (api : Nat → EmbedEvent) (max_retries : Nat)
    (batch_texts : List String) : List (Option (List ℝ)) × List (List String) :=
  let valid := validBatch batch_texts
  if valid.isEmpty then (List.replicate batch_texts.length none, [])
  else process_batch_go api max_retries batch_texts valid 0 max_retries

/-- The `for i in range(0, len(texts), batch_size)` batching loop of
`generate_embeddings_batch` (generator.py lines 174-184), fused with the
flattening of the gathered per-batch results.  `api i` is the oracle for the
batch starting at index `i`.  The fuel bounds the number of loop steps; with a
positive `batch_size` it never runs out (Python raises `ValueError` on a zero
`range` step, so `batch_size = 0` is outside the contract). -/
noncomputable def generate_embeddings_batch_go (api : Nat → Nat → EmbedEvent)
    (max_retries batch_size : Nat) :
    Nat → Nat → List String → List (Option (List ℝ)) × List (List String)
  | _, _, [] => ([], [])
  | 0, _, _ :: _ => ([], [])
  | fuel + 1, i, text :: restTexts =>
    let pb := process_batch (api i) max_retries ((text :: restTexts).take batch_size)
    let rest := generate_embeddings_batch_go api max_retries batch_size fuel (i + batch_size)
      ((text :: restTexts).drop batch_size)
    (pb.1 ++ rest.1, pb.2 ++ rest.2)

/-- `generate_embeddings_batch` (generator.py lines 87-186): split `texts` into
batches of `batch_size`, process each batch, and concatenate the per-batch
slot lists in order.  The second component collects, batch by batch, the text
lists submitted to the embedding service. -/
noncomputable def generate_embeddings_batch (api : Nat → Nat → EmbedEvent)
    (max_retries batch_size : Nat) (texts : List String) :
    List (Option (List ℝ)) × List (List String) :=
  generate_embeddings_batch_go api max_retries batch_size texts.length 0 texts

/-! ### processing/chunker.py : chunk_text -/

/-- The `while start < len(tokens)` loop of `chunk_text`
(chunker.py lines 67-83), at the level of token runs.  `stop` is the source's
`end`.  The fuel bounds the iterations; the theorems below assume
`overlap < chunk_size`, under which the start index strictly increases and the
fuel chosen by `chunkTokenRuns` is never exhausted (with
`chunk_size <= overlap` the Python loop does not terminate). -/
def chunk_text_go (chunk_size overlap : Nat) (tokens : List Nat) : Nat → Nat → List (List Nat)
  | _, 0 => []
  | start, fuel + 1 =>
    if start < tokens.length then
      let stop := min (start + chunk_size) tokens.length
      let chunkTokens := (tokens.drop start).take (stop - start)
      if stop < tokens.length then
        chunkTokens :: chunk_text_go chunk_size overlap tokens (stop - overlap) fuel
      else [chunkTokens]
    else []

/-- Token runs produced by the main path of `chunk_text`. -/
def chunkTokenRuns (chunk_size overlap : Nat) (tokens : List Nat) : List (List Nat) :=
  chunk_text_go chunk_size overlap tokens 0 (tokens.length + 1)

/-- `chunk_text` (chunker.py lines 28-86), main path: empty or whitespace-only
input yields `[]`; otherwise encode, split into runs, decode each run.  The
tokenizer collaborator is modelled as a total pair `enc`/`dec`, so the
`except` branches guarding tokenizer failure are not reachable in the
embedding. -/
def chunk_text (enc : String → List Nat) (dec : List Nat → String)
    (chunk_size overlap : Nat) (text : String) : List String :=
  if text.trim = "" then []
  else (chunkTokenRuns chunk_size overlap (enc text)).map dec

/-- The `for i in range(0, len(words), chunk_word_size - overlap_word_size)`
loop of the fallback path of `chunk_text` (chunker.py lines 54-63), at the
level of word runs (the source joins each run with single spaces). -/
def chunk_fallback_go (chunk_word_size step : Nat) (words : List String) :
    Nat → Nat → List (List String)
  | _, 0 => []
  | i, fuel + 1 =>
    if i < words.length then
      (words.drop i).take chunk_word_size ::
        chunk_fallback_go chunk_word_size step words (i + step) fuel
    else []

/-- Word runs produced by the fallback path of `chunk_text`:
`chunk_word_size = chunk_size // 4`, `overlap_word_size = overlap // 4`,
step `chunk_word_size - overlap_word_size`. -/
def chunkFallbackRuns (chunk_size overlap : Nat) (words : List String) : List (List String) :=
  chunk_fallback_go (chunk_size / 4) (chunk_size / 4 - overlap / 4) words 0 (words.length + 1)

/-- "Concatenating the chunks, ignoring overlap": the first chunk whole, every
later chunk with its first `overlap` elements (the part repeated from its
predecessor) removed. -/
def dropOverlapFlatten {β : Type} (overlap : Nat) : List (List β) → List β
  | [] => []
  | r :: rs => r ++ (rs.map (List.drop overlap)).flatten

/-! ### analysis/gap_detector.py : detect_missing_pages, priorities, detect_metadata_gaps -/

/-- A row of the persisted `gaps` table (schema in `utils/database.py`);
`similarity_score` is nullable there. -/
structure GapsTableRow where
  competitor_url : String
  closest_match_url : String
  similarity_score : Option ℚ
  gap_type : String

deriving instance DecidableEq for GapsTableRow

/-- A row returned by the `detect_missing_pages` query
(gap_detector.py lines 29-35). -/
structure MissingContentRow where
  competitor_url : String
  closest_match_url : String
  similarity_score : ℚ

deriving instance DecidableEq for MissingContentRow

/-- `r` is the projection of table row `g` selected by the WHERE clause
`gap_type = missing_content AND similarity_score < ?` (a NULL score never
satisfies the comparison). -/
def missingContentProjection (threshold : ℚ) (g : GapsTableRow) (r : MissingContentRow) : Prop :=
  g.gap_type = "missing_content" ∧ g.similarity_score = some r.similarity_score ∧
    r.similarity_score < threshold ∧ r.competitor_url = g.competitor_url ∧
    r.closest_match_url = g.closest_match_url

/-- Contract of the `SELECT DISTINCT ... ORDER BY similarity_score ASC` query of
`detect_missing_pages`: any row list that is duplicate-free, sorted by score
ascending, and contains exactly the qualifying projections.  SQL leaves the
relative order of equal scores unspecified, so the query is a relation, not a
function. -/
def isMissingPagesQueryResult (table : List GapsTableRow) (threshold : ℚ)
    (rows : List MissingContentRow) : Prop :=
  rows.Nodup ∧ rows.Sorted (fun a b => a.similarity_score ≤ b.similarity_score) ∧
    ∀ r, r ∈ rows ↔ ∃ g ∈ table, missingContentProjection threshold g r

/-- The priority banding of `detect_missing_pages`
(gap_detector.py lines 50-55); the two band limits are literal constants in
the source. -/
def missingPagePriority (similarity_score : ℚ) : String :=
  if similarity_score < 0.2 then "high"
  else if similarity_score < 0.35 then "medium"
  else "low"

/-- One element of the list built by `detect_missing_pages`
(gap_detector.py lines 57-64).  `gapKind` is the dict key `type`;
`similarity_percentage` is the numeric value whose one-decimal rendering the
source stores. -/
structure MissingPageGap where
  gapKind : String
  competitor_url : String
  closest_match_url : String
  similarity_score : ℚ
  similarity_percentage : ℚ
  priority : String

deriving instance DecidableEq for MissingPageGap

/-- The `for row in rows` loop of `detect_missing_pages`
(gap_detector.py lines 39-64): skip URLs already in `processed_urls`,
otherwise record the gap and mark the URL processed. -/
def detect_missing_pages_loop :
    List MissingContentRow → List String → List MissingPageGap
  | [], _ => []
  | row :: rest, processed_urls =>
    if row.competitor_url ∈ processed_urls then
      detect_missing_pages_loop rest processed_urls
    else
      { gapKind := "missing_page", competitor_url := row.competitor_url,
        closest_match_url := row.closest_match_url,
        similarity_score := row.similarity_score,
        similarity_percentage := row.similarity_score * 100,
        priority := missingPagePriority row.similarity_score } ::
        detect_missing_pages_loop rest (row.competitor_url :: processed_urls)

/-- `detect_missing_pages` (gap_detector.py lines 10-67) after its query. -/
def detect_missing_pages (rows : List MissingContentRow) : List MissingPageGap :=
  detect_missing_pages_loop rows []

/-- `config.get(key, default)` for the numeric configuration entries read by
`get_all_gaps` (gap_detector.py lines 267-275). -/
def config_get (config : List (String × ℚ)) (key : String) (default : ℚ) : ℚ :=
  (config.lookup key).getD default

/-- The only configuration value `get_all_gaps` passes to
`detect_missing_pages`: `config.get('similarity_threshold', 0.45)`
(gap_detector.py lines 267-270).  No priority-band entry is read anywhere. -/
def get_all_gaps_similarity_threshold (config : List (String × ℚ)) : ℚ :=
  config_get config "similarity_threshold" 0.45

/-- A row of the `pages` table as seen by `detect_metadata_gaps`;
`title`, `description` and `h1` are nullable. -/
structure PageRow where
  url : String
  title : Option String
  description : Option String
  h1 : Option String
  is_primary : Bool

deriving instance DecidableEq for PageRow

/-- A row returned by the `detect_metadata_gaps` query
(gap_detector.py lines 160-166). -/
structure MetadataRow where
  url : String
  title : Option String
  description : Option String
  h1 : Option String

deriving instance DecidableEq for MetadataRow

/-- The WHERE clause of the `detect_metadata_gaps` query:
`is_primary = 1 AND (title IS NULL OR description IS NULL OR h1 IS NULL)`. -/
def metadataQualifies (p : PageRow) : Prop :=
  p.is_primary = true ∧ (p.title = none ∨ p.description = none ∨ p.h1 = none)

/-- Contract of the `SELECT DISTINCT ... ORDER BY url` query of
`detect_metadata_gaps`. -/
def isMetadataQueryResult (pages : List PageRow) (rows : List MetadataRow) : Prop :=
  rows.Nodup ∧ rows.Sorted (fun a b => a.url ≤ b.url) ∧
    ∀ r, r ∈ rows ↔ ∃ p ∈ pages, metadataQualifies p ∧
      r = MetadataRow.mk p.url p.title p.description p.h1

/-- The dict built by the (unreachable) body of the `detect_metadata_gaps` loop
(gap_detector.py lines 195-201). -/
structure MetadataGap where
  url : String
  missing_elements : List String
  missing_count : Nat
  priority : String

deriving instance DecidableEq for MetadataGap

/-- `detect_metadata_gaps` (gap_detector.py lines 145-204) after its query.
The loop declares `processed_urls` but its first statement reads the undefined
name `seen_urls` (line 173), so the first iteration raises `NameError`; the
gap-building code below that line is unreachable and the function can only
return normally when the query yields no rows. -/
def detect_metadata_gaps (rows : List MetadataRow) : Except String (List MetadataGap) :=
  match rows with
  | [] => .ok []
  | _ :: _ => .error "NameError: name seen_urls is not defined"

/-! ### Concrete instances used to exercise the definitions -/

/-- A concrete instantiation of the similarity parameter (any function works;
all theorems about `find_content_gaps` are parametric in it). -/
def simProd : ℚ → ℚ → ℚ := fun a b => a * b

/-- A one-element primary embedding set. -/
def primaryExample : List (Nat × ℚ × String) := [(1, 1, "primary-a")]

/-- A competitor tuple. -/
def competitorExample : Nat × ℚ × String := (2, 1, "competitor-b")

/-- An attempt oracle that always rate-limits (HTTP 429). -/
def always429 : Nat → FetchEvent := fun _ => .status 429 ""

/-- An attempt oracle that always reports a server error (HTTP 500). -/
def always500 : Nat → FetchEvent := fun _ => .status 500 ""

/-- An attempt oracle that always times out. -/
def alwaysTimedOut : Nat → FetchEvent := fun _ => .timedOut

/-- A per-URL oracle: `url-bad` receives HTTP 404 at once, everything else
times out on every attempt. -/
def mixedOracles : String → Nat → FetchEvent := fun url _ =>
  if url = "url-bad" then .status 404 "" else .timedOut

/-- A concrete tokenizer encode (any total function works; the theorems about
`chunk_text` are parametric in it). -/
def encExample : String → List Nat := fun s => List.range s.length

/-- A concrete tokenizer decode. -/
def decExample : List Nat → String := fun l => String.join (l.map (fun _ => "x"))

/-- A `gaps` table holding two `missing_content` chunks for one competitor URL. -/
def gapsTableExample : List GapsTableRow :=
  [{ competitor_url := "competitor-b", closest_match_url := "primary-a",
     similarity_score := some 0.3, gap_type := "missing_content" },
   { competitor_url := "competitor-b", closest_match_url := "primary-a2",
     similarity_score := some 0.1, gap_type := "missing_content" }]

/-- A query result for `gapsTableExample` at threshold 0.45 (scores ascending). -/
def missingRowsExample : List MissingContentRow :=
  [{ competitor_url := "competitor-b", closest_match_url := "primary-a2",
     similarity_score := 0.1 },
   { competitor_url := "competitor-b", closest_match_url := "primary-a",
     similarity_score := 0.3 }]

/-- A single-row `gaps` table with a score inside the medium band. -/
def gapsTableMedium : List GapsTableRow :=
  [{ competitor_url := "competitor-b", closest_match_url := "primary-a",
     similarity_score := some 0.3, gap_type := "missing_content" }]

/-- The query result for `gapsTableMedium` at threshold 0.45. -/
def missingRowsMedium : List MissingContentRow :=
  [{ competitor_url := "competitor-b", closest_match_url := "primary-a",
     similarity_score := 0.3 }]

/-- A configuration that keeps the default similarity threshold but demands
priority bands at 0.5 and 0.75 — entries the source never reads. -/
def bandOverrideConfig : List (String × ℚ) :=
  [("similarity_threshold", 0.45), ("priority_high_band", 0.5),
   ("priority_medium_band", 0.75)]

/-- A `pages` table whose one primary page is missing its title. -/
def pagesExample : List PageRow :=
  [{ url := "page-u", title := none, description := some "d", h1 := some "h",
     is_primary := true }]

/-- The metadata query result for `pagesExample`. -/
def metadataRowsExample : List MetadataRow :=
  [{ url := "page-u", title := none, description := some "d", h1 := some "h" }]

/-! ## Helper lemmas -/

theorem max?_mem_rat (l : List ℚ) (s : ℚ) (h : l.max? = some s) : s ∈ l :=
  List.max?_mem (fun a b => max_choice a b) h

theorem max?_is_ub_rat (l : List ℚ) (s : ℚ) (h : l.max? = some s) : ∀ x ∈ l, x ≤ s :=
  fun x hx => (List.max?_le_iff (fun _ _ _ => max_le_iff) h).mp le_rfl x hx

theorem fetch_url_result_none_of_timedOut (oracle : Nat → FetchEvent)
    (h : ∀ a, oracle a = .timedOut) (n : Nat) (b : ℚ) :
    ∀ fuel a, (fetch_url_go oracle n b a fuel).result = none := by
  intro fuel
  induction fuel with
  | zero => intro a; simp [fetch_url_go]
  | succ m ih =>
    intro a
    simp only [fetch_url_go, h a]
    split <;> simp [ih]

theorem fetch_url_result_none_of_404 (oracle : Nat → FetchEvent) (body : String)
    (h : oracle 0 = .status 404 body) (n : Nat) (b : ℚ) :
    (fetch_url oracle n b).result = none := by
  cases n with
  | zero => simp [fetch_url, fetch_url_go]
  | succ m => simp [fetch_url, fetch_url_go, h]

theorem dictInsert_fst_eq_of_any (m : List (String × Option String)) (k : String)
    (v : Option String) (h : m.any (fun p => p.1 == k)) :
    (dictInsert m k v).map Prod.fst = m.map Prod.fst := by
  unfold dictInsert
  rw [if_pos h, List.map_map]
  apply List.map_congr_left
  intro p _
  by_cases hp : p.1 == k
  · simp only [Function.comp_apply, if_pos hp]
    exact (eq_of_beq hp).symm
  · have hp' : ¬ p.1 = k := fun he => hp (beq_iff_eq.mpr he)
    simp [Function.comp_apply, hp']

theorem dictInsert_mem_fst (m : List (String × Option String)) (k : String)
    (v : Option String) (u : String) :
    u ∈ (dictInsert m k v).map Prod.fst ↔ u ∈ m.map Prod.fst ∨ u = k := by
  by_cases h : m.any (fun p => p.1 == k)
  · rw [dictInsert_fst_eq_of_any m k v h]
    have hk : k ∈ m.map Prod.fst := by
      rcases List.any_eq_true.mp h with ⟨p, hp, hpk⟩
      exact List.mem_map.mpr ⟨p, hp, eq_of_beq hpk⟩
    constructor
    · exact Or.inl
    · rintro (hu | rfl)
      · exact hu
      · exact hk
  · unfold dictInsert
    rw [if_neg h]
    simp

theorem dictInsert_nodup (m : List (String × Option String)) (k : String)
    (v : Option String) (hm : (m.map Prod.fst).Nodup) :
    ((dictInsert m k v).map Prod.fst).Nodup := by
  by_cases h : m.any (fun p => p.1 == k)
  · rwa [dictInsert_fst_eq_of_any m k v h]
  · unfold dictInsert
    rw [if_neg h]
    have hk : k ∉ m.map Prod.fst := by
      intro hmem
      rcases List.mem_map.mp hmem with ⟨p, hp, hpk⟩
      exact h (List.any_eq_true.mpr ⟨p, hp, beq_iff_eq.mpr hpk⟩)
    simp only [List.map_append, List.map_cons, List.map_nil]
    rw [List.nodup_append]
    exact ⟨hm, List.nodup_singleton k, by simpa [List.disjoint_singleton] using hk⟩

theorem dictInsert_values (f : String → Option String) (m : List (String × Option String))
    (k : String) (hm : ∀ p ∈ m, p.2 = f p.1) :
    ∀ p ∈ dictInsert m k (f k), p.2 = f p.1 := by
  intro p hp
  unfold dictInsert at hp
  by_cases h : m.any (fun q => q.1 == k)
  · rw [if_pos h] at hp
    rcases List.mem_map.mp hp with ⟨q, hq, hqe⟩
    by_cases hqk : q.1 == k
    · rw [if_pos hqk] at hqe
      subst hqe
      rfl
    · rw [if_neg hqk] at hqe
      subst hqe
      exact hm q hq
  · rw [if_neg h] at hp
    rcases List.mem_append.mp hp with hp' | hp'
    · exact hm p hp'
    · rcases List.mem_singleton.mp hp' with rfl
      rfl

theorem lookup_of_values (f : String → Option String) :
    ∀ (m : List (String × Option String)) (u : String),
      (∀ p ∈ m, p.2 = f p.1) → u ∈ m.map Prod.fst → m.lookup u = some (f u) := by
  intro m
  induction m with
  | nil => intro u _ hu; simp at hu
  | cons q rest ih =>
    intro u hv hu
    by_cases hq : u == q.1
    · have : q.2 = f q.1 := hv q (List.mem_cons_self q rest)
      simp [List.lookup, hq, this, eq_of_beq hq]
    · have hu2 : u = q.1 ∨ ∃ x, (u, x) ∈ rest := by simpa using hu
      have hu' : u ∈ rest.map Prod.fst := by
        rcases hu2 with h | ⟨x, hx⟩
        · exact absurd (beq_iff_eq.mpr h) hq
        · exact List.mem_map.mpr ⟨(u, x), hx, rfl⟩
      simp only [List.lookup, hq]
      exact ih u (fun p hp => hv p (List.mem_cons_of_mem q hp)) hu'

theorem fetch_urls_batch_fold (oracles : String → Nat → FetchEvent)
    (retry_attempts : Nat) (backoff_base : ℚ) :
    ∀ (urls : List String) (acc : List (String × Option String)),
      (acc.map Prod.fst).Nodup →
      (∀ p ∈ acc, p.2 = (fetch_url (oracles p.1) retry_attempts backoff_base).result) →
      ((urls.foldl (fun results url =>
          dictInsert results url
            (fetch_url (oracles url) retry_attempts backoff_base).result) acc).map
            Prod.fst).Nodup ∧
      (∀ u, u ∈ (urls.foldl (fun results url =>
          dictInsert results url
            (fetch_url (oracles url) retry_attempts backoff_base).result) acc).map Prod.fst
          ↔ u ∈ acc.map Prod.fst ∨ u ∈ urls) ∧
      (∀ p ∈ urls.foldl (fun results url =>
          dictInsert results url
            (fetch_url (oracles url) retry_attempts backoff_base).result) acc,
        p.2 = (fetch_url (oracles p.1) retry_attempts backoff_base).result) := by
  intro urls
  induction urls with
  | nil =>
    intro acc hnd hv
    refine ⟨hnd, ?_, hv⟩
    simp
  | cons url rest ih =>
    intro acc hnd hv
    have hnd' := dictInsert_nodup acc url
      (fetch_url (oracles url) retry_attempts backoff_base).result hnd
    have hv' := dictInsert_values
      (fun u => (fetch_url (oracles u) retry_attempts backoff_base).result) acc url hv
    rcases ih (dictInsert acc url
        (fetch_url (oracles url) retry_attempts backoff_base).result) hnd' hv' with
      ⟨h1, h2, h3⟩
    refine ⟨h1, ?_, h3⟩
    intro u
    rw [List.foldl_cons, h2 u, dictInsert_mem_fst]
    simp only [List.mem_cons]
    tauto

/-- Invariant of the `detect_missing_pages` dedup loop: on score-sorted rows it
produces duplicate-free competitor URLs, none already processed, every gap
copies some row (with the banded priority), and every gap's score is a lower
bound for all rows carrying its URL. -/
theorem detect_missing_pages_loop_spec :
    ∀ (rows : List MissingContentRow) (processed : List String),
      List.Sorted (fun a b => a.similarity_score ≤ b.similarity_score) rows →
      (((detect_missing_pages_loop rows processed).map
          (fun g => g.competitor_url)).Nodup ∧
        (∀ g ∈ detect_missing_pages_loop rows processed, g.competitor_url ∉ processed) ∧
        (∀ g ∈ detect_missing_pages_loop rows processed,
          ∃ r ∈ rows, r.competitor_url = g.competitor_url ∧
            r.similarity_score = g.similarity_score ∧
            r.closest_match_url = g.closest_match_url ∧
            g.priority = missingPagePriority r.similarity_score ∧
            g.gapKind = "missing_page" ∧
            g.similarity_percentage = r.similarity_score * 100) ∧
        (∀ g ∈ detect_missing_pages_loop rows processed,
          ∀ r ∈ rows, r.competitor_url = g.competitor_url →
            g.similarity_score ≤ r.similarity_score)) := by
  intro rows
  induction rows with
  | nil =>
    intro processed _
    simp [detect_missing_pages_loop]
  | cons row rest ih =>
    intro processed hsorted
    rcases List.sorted_cons.mp hsorted with ⟨hle, hsorted'⟩
    by_cases hmem : row.competitor_url ∈ processed
    · rcases ih processed hsorted' with ⟨h1, h2, h3, h4⟩
      rw [detect_missing_pages_loop, if_pos hmem]
      refine ⟨h1, h2, ?_, ?_⟩
      · intro g hg
        rcases h3 g hg with ⟨r, hr, hrest⟩
        exact ⟨r, List.mem_cons_of_mem row hr, hrest⟩
      · intro g hg r hr hurl
        rcases List.mem_cons.mp hr with rfl | hr'
        · exact absurd (hurl ▸ hmem) (h2 g hg)
        · exact h4 g hg r hr' hurl
    · rcases ih (row.competitor_url :: processed) hsorted' with ⟨h1, h2, h3, h4⟩
      rw [detect_missing_pages_loop, if_neg hmem]
      refine ⟨?_, ?_, ?_, ?_⟩
      · rw [List.map_cons, List.nodup_cons]
        refine ⟨?_, h1⟩
        show row.competitor_url ∉ _
        intro hin
        rcases List.mem_map.mp hin with ⟨g, hg, hgu⟩
        apply h2 g hg
        rw [hgu]
        exact List.mem_cons_self _ _
      · intro g hg
        rcases List.mem_cons.mp hg with rfl | hg'
        · exact hmem
        · exact fun hc => (h2 g hg') (List.mem_cons_of_mem _ hc)
      · intro g hg
        rcases List.mem_cons.mp hg with rfl | hg'
        · exact ⟨row, List.mem_cons_self _ _, rfl, rfl, rfl, rfl, rfl, rfl⟩
        · rcases h3 g hg' with ⟨r, hr, hrest⟩
          exact ⟨r, List.mem_cons_of_mem row hr, hrest⟩
      · intro g hg r hr hurl
        rcases List.mem_cons.mp hg with rfl | hg'
        · rcases List.mem_cons.mp hr with rfl | hr'
          · exact le_rfl
          · exact hle r hr'
        · rcases List.mem_cons.mp hr with rfl | hr'
          · refine absurd ?_ (h2 g hg')
            rw [← hurl]
            exact List.mem_cons_self _ _
          · exact h4 g hg' r hr' hurl

/-- Every gap the dedup loop emits carries the banded priority of its own
score, independently of the processed set. -/
theorem detect_missing_pages_loop_priority :
    ∀ (rows : List MissingContentRow) (processed : List String),
      ∀ g ∈ detect_missing_pages_loop rows processed,
        g.priority = missingPagePriority g.similarity_score := by
  intro rows
  induction rows with
  | nil => intro processed g hg; simp [detect_missing_pages_loop] at hg
  | cons row rest ih =>
    intro processed g hg
    rw [detect_missing_pages_loop] at hg
    by_cases hmem : row.competitor_url ∈ processed
    · rw [if_pos hmem] at hg
      exact ih processed g hg
    · rw [if_neg hmem] at hg
      rcases List.mem_cons.mp hg with rfl | hg'
      · rfl
      · exact ih (row.competitor_url :: processed) g hg'

/-- The query-result contract holds for the concrete single-row instance at the
threshold `get_all_gaps` extracts from `bandOverrideConfig`. -/
theorem missingRowsMedium_query :
    isMissingPagesQueryResult gapsTableMedium
      (get_all_gaps_similarity_threshold bandOverrideConfig) missingRowsMedium := by
  have hthr : get_all_gaps_similarity_threshold bandOverrideConfig = 0.45 := by
    simp [get_all_gaps_similarity_threshold, config_get, bandOverrideConfig, List.lookup]
  rw [hthr]
  refine ⟨by simp [missingRowsMedium], by simp [missingRowsMedium], ?_⟩
  intro r
  constructor
  · intro hr
    rcases List.mem_singleton.mp (by simpa [missingRowsMedium] using hr) with rfl
    refine ⟨{ competitor_url := "competitor-b", closest_match_url := "primary-a",
              similarity_score := some 0.3, gap_type := "missing_content" },
      by simp [gapsTableMedium], ?_⟩
    refine ⟨rfl, rfl, by norm_num, rfl, rfl⟩
  · rintro ⟨g, hg, hproj⟩
    rcases List.mem_singleton.mp (by simpa [gapsTableMedium] using hg) with rfl
    rcases r with ⟨ru, rc, rs⟩
    rcases hproj with ⟨-, hscore, -, hurl, hclosest⟩
    have hs : rs = 0.3 := by
      simpa [gapsTableMedium] using hscore.symm
    simp only [missingRowsMedium, List.mem_singleton]
    simp_all [gapsTableMedium]

theorem EPSILON_pos : 0 < EPSILON := by norm_num [EPSILON]

theorem l2Norm_nonneg (v : List ℝ) : 0 ≤ l2Norm v := Real.sqrt_nonneg _

theorem l2Norm_map_div (v : List ℝ) (d : ℝ) (hd : 0 < d) :
    l2Norm (v.map (fun x => x / d)) = l2Norm v / d := by
  unfold l2Norm
  rw [List.map_map]
  have h1 : ((fun x => x ^ 2) ∘ fun x => x / d) = fun x => x ^ 2 * (1 / d) ^ 2 := by
    funext x
    simp only [Function.comp_apply, div_pow, one_div, ← mul_pow]
    ring
  have hS : 0 ≤ (v.map fun x => x ^ 2).sum := by
    apply List.sum_nonneg
    intro a ha
    rcases List.mem_map.mp ha with ⟨x, -, rfl⟩
    positivity
  rw [h1, List.sum_map_mul_right, Real.sqrt_mul hS, Real.sqrt_sq (by positivity),
    mul_one_div]

theorem chunk_text_go_head (chunk_size overlap : Nat) (tokens : List Nat)
    (start fuel : Nat) (hs : start < tokens.length) :
    chunk_text_go chunk_size overlap tokens start (fuel + 1)
      = (tokens.drop start).take (min (start + chunk_size) tokens.length - start) ::
        (if min (start + chunk_size) tokens.length < tokens.length
         then chunk_text_go chunk_size overlap tokens
           (min (start + chunk_size) tokens.length - overlap) fuel
         else []) := by
  rw [chunk_text_go]
  rw [if_pos hs]
  by_cases h2 : min (start + chunk_size) tokens.length < tokens.length
  · rw [if_pos h2, if_pos h2]
  · rw [if_neg h2, if_neg h2]

/-- Structure of the token-run loop: starting inside the token list, the head
run is the slice from `start` to `stop`, and flattening the tail with the
first `overlap` tokens of each run removed yields exactly the tokens from
`stop` on. -/
theorem chunk_text_go_spec (chunk_size overlap : Nat) (tokens : List Nat)
    (hov : overlap < chunk_size) :
    ∀ fuel start, tokens.length - start ≤ fuel → start < tokens.length →
      ∃ rs, chunk_text_go chunk_size overlap tokens start fuel
          = (tokens.drop start).take (min (start + chunk_size) tokens.length - start) :: rs ∧
        (rs.map (List.drop overlap)).flatten
          = tokens.drop (min (start + chunk_size) tokens.length) := by
  intro fuel
  induction fuel with
  | zero => intro start hf hs; omega
  | succ f ih =>
    intro start hf hs
    rw [chunk_text_go_head chunk_size overlap tokens start f hs]
    by_cases h2 : min (start + chunk_size) tokens.length < tokens.length
    · have hstop : min (start + chunk_size) tokens.length = start + chunk_size := by omega
      rw [if_pos h2, hstop]
      have hs' : start + chunk_size - overlap < tokens.length := by omega
      have hf' : tokens.length - (start + chunk_size - overlap) ≤ f := by omega
      rcases ih (start + chunk_size - overlap) hf' hs' with ⟨rs', hgo, hflat⟩
      rw [hgo]
      refine ⟨_, rfl, ?_⟩
      rw [List.map_cons, List.flatten_cons, hflat]
      have hM : start + chunk_size ≤ min (start + chunk_size - overlap + chunk_size)
          tokens.length := by omega
      rw [List.drop_take, List.drop_drop]
      have harith : start + chunk_size - overlap + overlap = start + chunk_size := by
        omega
      rw [harith]
      have hM2 : min (start + chunk_size - overlap + chunk_size) tokens.length - (start
          + chunk_size - overlap) - overlap
          = min (start + chunk_size - overlap + chunk_size) tokens.length
            - (start + chunk_size) := by omega
      rw [hM2]
      have hdd : tokens.drop (min (start + chunk_size - overlap + chunk_size) tokens.length)
          = (tokens.drop (start + chunk_size)).drop
            (min (start + chunk_size - overlap + chunk_size) tokens.length
              - (start + chunk_size)) := by
        rw [List.drop_drop]
        congr 1
        omega
      rw [hdd, List.take_append_drop]
    · rw [if_neg h2]
      have hstop : min (start + chunk_size) tokens.length = tokens.length := by omega
      refine ⟨[], rfl, ?_⟩
      rw [hstop]
      simp

theorem chunk_text_go_runs_bounded (chunk_size overlap : Nat) (tokens : List Nat)
    (hcs : 0 < chunk_size) :
    ∀ fuel start, ∀ r ∈ chunk_text_go chunk_size overlap tokens start fuel,
      r.length ≤ chunk_size ∧ r ≠ [] := by
  intro fuel
  induction fuel with
  | zero => intro start r hr; simp [chunk_text_go] at hr
  | succ f ih =>
    intro start r hr
    rw [chunk_text_go] at hr
    by_cases hs : start < tokens.length
    · rw [if_pos hs] at hr
      by_cases h2 : min (start + chunk_size) tokens.length < tokens.length
      · rw [if_pos h2] at hr
        rcases List.mem_cons.mp hr with rfl | hr'
        · constructor
          · simpa using by omega
          · have hlen : ((tokens.drop start).take
                (min (start + chunk_size) tokens.length - start)).length
                = min (min (start + chunk_size) tokens.length - start)
                  (tokens.length - start) := by simp
            intro hnil
            rw [hnil] at hlen
            simp at hlen
            omega
        · exact ih (min (start + chunk_size) tokens.length - overlap) r hr'
      · rw [if_neg h2] at hr
        rcases List.mem_singleton.mp hr with rfl
        constructor
        · simpa using by omega
        · have hlen : ((tokens.drop start).take
              (min (start + chunk_size) tokens.length - start)).length
              = min (min (start + chunk_size) tokens.length - start)
                (tokens.length - start) := by simp
          intro hnil
          rw [hnil] at hlen
          simp at hlen
          omega
    · rw [if_neg hs] at hr
      simp at hr

/-- Structure of the fallback word-window loop: flattening all windows from
position `i`, each with its first `chunk_word_size - step` words removed,
yields exactly the words from `i + (chunk_word_size - step)` on. -/
theorem chunk_fallback_go_spec (chunk_word_size step : Nat) (words : List String)
    (hstep : 1 ≤ step) (hcw : step ≤ chunk_word_size) :
    ∀ fuel i, words.length - i ≤ fuel →
      ((chunk_fallback_go chunk_word_size step words i fuel).map
          (List.drop (chunk_word_size - step))).flatten
        = words.drop (i + (chunk_word_size - step)) := by
  intro fuel
  induction fuel with
  | zero =>
    intro i hf
    have hle : words.length ≤ i := by omega
    rw [chunk_fallback_go]
    simp [List.drop_eq_nil_of_le (le_trans hle (Nat.le_add_right i _))]
  | succ f ih =>
    intro i hf
    rw [chunk_fallback_go]
    by_cases hi : i < words.length
    · rw [if_pos hi, List.map_cons, List.flatten_cons,
        ih (i + step) (by omega)]
      rw [List.drop_take, List.drop_drop]
      have h2 : i + step + (chunk_word_size - step) = i + chunk_word_size := by omega
      have h3 : chunk_word_size - (chunk_word_size - step) = step := by omega
      rw [h2, h3]
      have hdd : words.drop (i + chunk_word_size)
          = (words.drop (i + (chunk_word_size - step))).drop step := by
        rw [List.drop_drop]
        congr 1
        omega
      rw [hdd, List.take_append_drop]
    · rw [if_neg hi]
      have hle : words.length ≤ i := by omega
      simp [List.drop_eq_nil_of_le (le_trans hle (Nat.le_add_right i _))]

theorem foldl_setNorm_length (pairs : List (Nat × List ℝ)) :
    ∀ (acc : List (Option (List ℝ))),
      (pairs.foldl (fun a p => a.set p.1 (some (normalizeEmbedding p.2))) acc).length
        = acc.length := by
  induction pairs with
  | nil => intro acc; rfl
  | cons p rest ih =>
    intro acc
    rw [List.foldl_cons, ih]
    simp

theorem foldl_setNorm_getElem_ne (j : Nat) (pairs : List (Nat × List ℝ)) :
    ∀ (acc : List (Option (List ℝ))), (∀ p ∈ pairs, p.1 ≠ j) →
      (pairs.foldl (fun a p => a.set p.1 (some (normalizeEmbedding p.2))) acc)[j]?
        = acc[j]? := by
  induction pairs with
  | nil => intro acc _; rfl
  | cons p rest ih =>
    intro acc hne
    rw [List.foldl_cons, ih _ (fun q hq => hne q (List.mem_cons_of_mem p hq)),
      List.getElem?_set_ne (hne p (List.mem_cons_self p rest))]

theorem placeEmbeddings_length (batchLen : Nat) (pairs : List (Nat × List ℝ)) :
    (placeEmbeddings batchLen pairs).length = batchLen := by
  unfold placeEmbeddings
  rw [foldl_setNorm_length]
  simp

theorem placeEmbeddings_getElem_ne (batchLen j : Nat) (pairs : List (Nat × List ℝ))
    (hne : ∀ p ∈ pairs, p.1 ≠ j) (hj : j < batchLen) :
    (placeEmbeddings batchLen pairs)[j]? = some none := by
  unfold placeEmbeddings
  rw [foldl_setNorm_getElem_ne j pairs (List.replicate batchLen none) hne,
    List.getElem?_replicate, if_pos hj]

theorem process_batch_go_length (api : Nat → EmbedEvent) (max_retries : Nat)
    (batch_texts : List String) (valid : List (Nat × String)) :
    ∀ fuel attempt,
      ((process_batch_go api max_retries batch_texts valid attempt fuel).1).length
        = batch_texts.length := by
  intro fuel
  induction fuel with
  | zero => intro attempt; simp [process_batch_go]
  | succ f ih =>
    intro attempt
    cases hapi : api attempt with
    | success vectors =>
      simp [process_batch_go, hapi, placeEmbeddings_length]
    | unexpected => simp [process_batch_go, hapi]
    | rateLimited =>
      simp only [process_batch_go, hapi]
      split
      · exact ih (attempt + 1)
      · simp
    | apiError =>
      simp only [process_batch_go, hapi]
      split
      · exact ih (attempt + 1)
      · simp
    | timedOut =>
      simp only [process_batch_go, hapi]
      split
      · exact ih (attempt + 1)
      · simp

theorem process_batch_length (api : Nat → EmbedEvent) (max_retries : Nat)
    (batch_texts : List String) :
    ((process_batch api max_retries batch_texts).1).length = batch_texts.length := by
  rw [process_batch]
  split
  · simp
  · exact process_batch_go_length api max_retries batch_texts _ max_retries 0

theorem validBatch_index_ne (batch_texts : List String) (j : Nat) (t : String)
    (hj : batch_texts[j]? = some t) (ht : t.trim = "") :
    ∀ p ∈ validBatch batch_texts, p.1 ≠ j := by
  intro p hp hpj
  rcases List.mem_filter.mp hp with ⟨henum, hpred⟩
  have hjt : batch_texts[p.1]? = some p.2 := List.mem_enum_iff_getElem?.mp henum
  rw [hpj, hj] at hjt
  rcases Option.some_injective _ hjt with rfl
  rw [ht] at hpred
  simp at hpred

theorem process_batch_go_slot_ne (api : Nat → EmbedEvent) (max_retries : Nat)
    (batch_texts : List String) (valid : List (Nat × String)) (j : Nat)
    (hne : ∀ p ∈ valid, p.1 ≠ j) (hj : j < batch_texts.length) :
    ∀ fuel attempt,
      ((process_batch_go api max_retries batch_texts valid attempt fuel).1)[j]?
        = some none := by
  intro fuel
  induction fuel with
  | zero =>
    intro attempt
    simp [process_batch_go, List.getElem?_replicate, hj]
  | succ f ih =>
    intro attempt
    cases hapi : api attempt with
    | success vectors =>
      simp only [process_batch_go, hapi]
      apply placeEmbeddings_getElem_ne _ _ _ ?_ hj
      intro p hp
      rcases List.of_mem_zip hp with ⟨hp1, -⟩
      rcases List.mem_map.mp hp1 with ⟨q, hq, hq1⟩
      rw [← hq1]
      exact hne q hq
    | unexpected =>
      simp only [process_batch_go, hapi]
      simp [List.getElem?_replicate, hj]
    | rateLimited =>
      simp only [process_batch_go, hapi]
      split
      · exact ih (attempt + 1)
      · simp [List.getElem?_replicate, hj]
    | apiError =>
      simp only [process_batch_go, hapi]
      split
      · exact ih (attempt + 1)
      · simp [List.getElem?_replicate, hj]
    | timedOut =>
      simp only [process_batch_go, hapi]
      split
      · exact ih (attempt + 1)
      · simp [List.getElem?_replicate, hj]

theorem process_batch_empty_slot (api : Nat → EmbedEvent) (max_retries : Nat)
    (batch_texts : List String) (j : Nat) (t : String)
    (hjt : batch_texts[j]? = some t) (ht : t.trim = "") :
    ((process_batch api max_retries batch_texts).1)[j]? = some none := by
  have hj : j < batch_texts.length := by
    rcases List.getElem?_eq_some.mp hjt with ⟨h, -⟩
    exact h
  rw [process_batch]
  split
  · simp [List.getElem?_replicate, hj]
  · exact process_batch_go_slot_ne api max_retries batch_texts _ j
      (validBatch_index_ne batch_texts j t hjt ht) hj max_retries 0

theorem process_batch_go_exhausted (api : Nat → EmbedEvent) (max_retries : Nat)
    (batch_texts : List String) (valid : List (Nat × String))
    (hfail : ∀ a, a < max_retries → ∀ vectors, api a ≠ .success vectors) :
    ∀ fuel attempt, attempt + fuel = max_retries →
      (process_batch_go api max_retries batch_texts valid attempt fuel).1
        = List.replicate batch_texts.length none := by
  intro fuel
  induction fuel with
  | zero => intro attempt _; simp [process_batch_go]
  | succ f ih =>
    intro attempt hsum
    have hlt : attempt < max_retries := by omega
    cases hapi : api attempt with
    | success vectors => exact absurd hapi (hfail attempt hlt vectors)
    | unexpected => simp only [process_batch_go, hapi]
    | rateLimited =>
      simp only [process_batch_go, hapi]
      split
      · exact ih (attempt + 1) (by omega)
      · rfl
    | apiError =>
      simp only [process_batch_go, hapi]
      split
      · exact ih (attempt + 1) (by omega)
      · rfl
    | timedOut =>
      simp only [process_batch_go, hapi]
      split
      · exact ih (attempt + 1) (by omega)
      · rfl

theorem process_batch_exhausted (api : Nat → EmbedEvent) (max_retries : Nat)
    (batch_texts : List String)
    (hfail : ∀ a, a < max_retries → ∀ vectors, api a ≠ .success vectors) :
    (process_batch api max_retries batch_texts).1
      = List.replicate batch_texts.length none := by
  rw [process_batch]
  split
  · rfl
  · exact process_batch_go_exhausted api max_retries batch_texts _ hfail max_retries 0
      (by omega)

theorem process_batch_go_sent (api : Nat → EmbedEvent) (max_retries : Nat)
    (batch_texts : List String) (valid : List (Nat × String)) :
    ∀ fuel attempt,
      ∀ call ∈ (process_batch_go api max_retries batch_texts valid attempt fuel).2,
        call = valid.map Prod.snd := by
  intro fuel
  induction fuel with
  | zero => intro attempt call hc; simp [process_batch_go] at hc
  | succ f ih =>
    intro attempt call hc
    cases hapi : api attempt with
    | success vectors =>
      simp only [process_batch_go, hapi] at hc
      rcases List.mem_singleton.mp hc with rfl
      rfl
    | unexpected =>
      simp only [process_batch_go, hapi] at hc
      rcases List.mem_singleton.mp hc with rfl
      rfl
    | rateLimited =>
      simp only [process_batch_go, hapi] at hc
      split at hc
      · rcases List.mem_cons.mp hc with rfl | hc'
        · rfl
        · exact ih (attempt + 1) call hc'
      · rcases List.mem_singleton.mp hc with rfl
        rfl
    | apiError =>
      simp only [process_batch_go, hapi] at hc
      split at hc
      · rcases List.mem_cons.mp hc with rfl | hc'
        · rfl
        · exact ih (attempt + 1) call hc'
      · rcases List.mem_singleton.mp hc with rfl
        rfl
    | timedOut =>
      simp only [process_batch_go, hapi] at hc
      split at hc
      · rcases List.mem_cons.mp hc with rfl | hc'
        · rfl
        · exact ih (attempt + 1) call hc'
      · rcases List.mem_singleton.mp hc with rfl
        rfl

theorem process_batch_sent_nonempty (api : Nat → EmbedEvent) (max_retries : Nat)
    (batch_texts : List String) :
    ∀ call ∈ (process_batch api max_retries batch_texts).2,
      ∀ t ∈ call, t.trim ≠ "" := by
  intro call hc t htc
  rw [process_batch] at hc
  split at hc
  · simp at hc
  · have hcall := process_batch_go_sent api max_retries batch_texts _ max_retries 0 call hc
    subst hcall
    rcases List.mem_map.mp htc with ⟨p, hp, rfl⟩
    rcases List.mem_filter.mp hp with ⟨-, hpred⟩
    simpa using hpred

theorem gen_go_length (api : Nat → Nat → EmbedEvent) (max_retries batch_size : Nat)
    (hbs : 0 < batch_size) :
    ∀ (fuel i : Nat) (texts : List String), texts.length ≤ fuel →
      ((generate_embeddings_batch_go api max_retries batch_size fuel i texts).1).length
        = texts.length := by
  intro fuel
  induction fuel with
  | zero =>
    intro i texts hf
    cases texts with
    | nil => rfl
    | cons t ts => simp at hf
  | succ f ih =>
    intro i texts hf
    cases texts with
    | nil => rfl
    | cons t ts =>
      simp only [generate_embeddings_batch_go]
      rw [List.length_append, process_batch_length,
        ih (i + batch_size) ((t :: ts).drop batch_size)
          (by rw [List.length_drop]; simp at hf ⊢; omega)]
      simp only [List.length_take, List.length_drop]
      simp only [List.length_cons] at hf ⊢
      omega

theorem gen_go_slots (api : Nat → Nat → EmbedEvent) (max_retries batch_size : Nat)
    (_hbs : 0 < batch_size) :
    ∀ (k : Nat) (texts : List String) (fuel i j : Nat), j < batch_size →
      k * batch_size + j < texts.length → texts.length ≤ fuel →
      ((generate_embeddings_batch_go api max_retries batch_size fuel i
          texts).1)[k * batch_size + j]?
        = ((process_batch (api (i + k * batch_size)) max_retries
            ((texts.drop (k * batch_size)).take batch_size)).1)[j]? := by
  intro k
  induction k with
  | zero =>
    intro texts fuel i j hj hlen hf
    cases texts with
    | nil => simp at hlen
    | cons t ts =>
      cases fuel with
      | zero => simp at hf
      | succ f =>
        simp only [generate_embeddings_batch_go, Nat.zero_mul, Nat.zero_add,
          Nat.add_zero, List.drop_zero]
        rw [List.getElem?_append_left]
        rw [process_batch_length, List.length_take]
        simp only [List.length_cons] at hlen ⊢
        omega
  | succ k ihk =>
    intro texts fuel i j hj hlen hf
    cases texts with
    | nil => simp at hlen
    | cons t ts =>
      cases fuel with
      | zero => simp at hf
      | succ f =>
        simp only [generate_embeddings_batch_go]
        have hkb : (k + 1) * batch_size = k * batch_size + batch_size := by ring
        have hpblen : ((process_batch (api i) max_retries
            ((t :: ts).take batch_size)).1).length = batch_size := by
          rw [process_batch_length, List.length_take]
          simp only [List.length_cons] at hlen ⊢
          omega
        have hbase : batch_size ≤ (k + 1) * batch_size + j := by omega
        rw [List.getElem?_append_right (by rw [hpblen]; exact hbase)]
        rw [hpblen]
        have hidx : (k + 1) * batch_size + j - batch_size = k * batch_size + j := by
          have : (k + 1) * batch_size = k * batch_size + batch_size := by ring
          omega
        rw [hidx]
        rw [ihk ((t :: ts).drop batch_size) f (i + batch_size) j hj
          (by rw [List.length_drop]; simp only [List.length_cons] at hlen ⊢;
              have : (k + 1) * batch_size = k * batch_size + batch_size := by ring
              omega)
          (by rw [List.length_drop]; simp only [List.length_cons] at hf ⊢; omega)]
        have harg : i + batch_size + k * batch_size = i + (k + 1) * batch_size := by ring
        have hdrop : ((t :: ts).drop batch_size).drop (k * batch_size)
            = (t :: ts).drop ((k + 1) * batch_size) := by
          rw [List.drop_drop]
          congr 1
          ring
        rw [harg, hdrop]

theorem gen_go_sent (api : Nat → Nat → EmbedEvent) (max_retries batch_size : Nat) :
    ∀ (fuel i : Nat) (texts : List String),
      ∀ call ∈ (generate_embeddings_batch_go api max_retries batch_size fuel i texts).2,
        ∀ t ∈ call, t.trim ≠ "" := by
  intro fuel
  induction fuel with
  | zero =>
    intro i texts call hc
    cases texts with
    | nil => simp [generate_embeddings_batch_go] at hc
    | cons t ts => simp [generate_embeddings_batch_go] at hc
  | succ f ih =>
    intro i texts call hc
    cases texts with
    | nil => simp [generate_embeddings_batch_go] at hc
    | cons t ts =>
      simp only [generate_embeddings_batch_go] at hc
      rcases List.mem_append.mp hc with hc' | hc'
      · exact process_batch_sent_nonempty (api i) max_retries _ call hc'
      · exact ih (i + batch_size) ((t :: ts).drop batch_size) call hc'

/-! ## Claim theorems -/

/-- C9: when the primary embedding set is empty, `find_content_gaps` returns an
empty gap list for every similarity function, every competitor embedding set
and every threshold (the degraded input is only logged; the embedding is a
total function, so no error is raised). -/
theorem find_content_gaps_empty_primary {α : Type} (sim : α → α → ℚ)
    (competitor : List (Nat × α × String)) (threshold : ℚ) :
    find_content_gaps sim [] competitor threshold = [] := rfl

/-- C1: for a non-empty primary set `P`, a competitor tuple `c` and a threshold
`t`, let `s` be the maximum similarity of `c` against `P`.  A gap is emitted
for `c` iff `s < t` (in particular `s = t` emits nothing), and an emitted
record carries exactly `s` as its score and the URL of a primary tuple
attaining `s` as its closest match.  Running on a whole competitor list is the
concatenation of the single-tuple runs. -/
theorem find_content_gaps_emission {α : Type} (sim : α → α → ℚ)
    (P : List (Nat × α × String)) (c : Nat × α × String) (t : ℚ) (hP : P ≠ []) :
    ∃ s : ℚ, (P.map (fun p => sim c.2.1 p.2.1)).max? = some s ∧
      (find_content_gaps sim P [c] t ≠ [] ↔ s < t) ∧
      (s = t → find_content_gaps sim P [c] t = []) ∧
      (∀ g ∈ find_content_gaps sim P [c] t,
        g.similarity_score = s ∧ g.competitor_url = c.2.2 ∧ g.gap_type = "missing_content" ∧
        ∃ p ∈ P, sim c.2.1 p.2.1 = s ∧ g.closest_match_url = p.2.2) ∧
      (∀ comp : List (Nat × α × String),
        find_content_gaps sim P comp t
          = (comp.map (fun x => find_content_gaps sim P [x] t)).flatten) := by
  have hPe : P.isEmpty = false := by
    cases P with
    | nil => exact absurd rfl hP
    | cons a l => rfl
  have hfind : ∀ (l : List (Nat × α × String)),
      find_content_gaps sim P l t = l.filterMap (gapForCompetitor sim P t) := by
    intro l; simp [find_content_gaps, hPe]
  have hsne : P.map (fun p => sim c.2.1 p.2.1) ≠ [] := by
    simpa using hP
  cases hmax : (P.map (fun p => sim c.2.1 p.2.1)).max? with
  | none => exact absurd (List.max?_eq_none_iff.mp hmax) hsne
  | some s =>
    have hmem : s ∈ P.map (fun p => sim c.2.1 p.2.1) := max?_mem_rat _ _ hmax
    have hidx : (P.map (fun p => sim c.2.1 p.2.1)).indexOf s
        < (P.map (fun p => sim c.2.1 p.2.1)).length :=
      List.indexOf_lt_length.mpr hmem
    have hidx' : (P.map (fun p => sim c.2.1 p.2.1)).indexOf s < P.length := by
      simpa using hidx
    have hPidx : P[(P.map (fun p => sim c.2.1 p.2.1)).indexOf s]?
        = some (P[(P.map (fun p => sim c.2.1 p.2.1)).indexOf s]) :=
      List.getElem?_eq_getElem hidx'
    have hsim_eq :
        sim c.2.1 (P[(P.map (fun p => sim c.2.1 p.2.1)).indexOf s]).2.1 = s := by
      have h1 : (P.map (fun p => sim c.2.1 p.2.1))[(P.map
          (fun p => sim c.2.1 p.2.1)).indexOf s] = s :=
        List.getElem_indexOf hidx
      rwa [List.getElem_map] at h1
    have hgap : gapForCompetitor sim P t c =
        (if s < t then
          some { competitor_url := c.2.2,
                 closest_match_url :=
                   (P[(P.map (fun p => sim c.2.1 p.2.1)).indexOf s]).2.2,
                 similarity_score := s, gap_type := "missing_content" }
         else none) := by
      simp [gapForCompetitor, hmax, hPidx]
    refine ⟨s, rfl, ?_, ?_, ?_, ?_⟩
    · rw [hfind]
      by_cases hlt : s < t <;> simp [List.filterMap_cons, hgap, hlt]
    · intro hst
      rw [hfind]
      simp [List.filterMap_cons, hgap, hst]
    · intro g hg
      rw [hfind] at hg
      by_cases hlt : s < t
      · simp [List.filterMap_cons, hgap, hlt] at hg
        subst hg
        refine ⟨rfl, rfl, rfl,
          P[(P.map (fun p => sim c.2.1 p.2.1)).indexOf s], ?_, hsim_eq, rfl⟩
        exact List.getElem_mem _
      · simp [List.filterMap_cons, hgap, hlt] at hg
    · intro comp
      have hsingle : ∀ y, find_content_gaps sim P [y] t
          = (gapForCompetitor sim P t y).toList := by
        intro y
        rw [hfind]
        cases hgy : gapForCompetitor sim P t y <;> simp [List.filterMap_cons, hgy]
      induction comp with
      | nil => simp [hfind]
      | cons x xs ih =>
        rw [hfind, List.filterMap_cons, List.map_cons, List.flatten_cons, hsingle x,
          ← ih, hfind]
        cases hgx : gapForCompetitor sim P t x <;> simp [hgx]

/-- C2: `fetch_urls_batch` returns a mapping with exactly one entry per input
URL (keys are duplicate-free and are exactly the input URLs), every URL maps
to its `fetch_url` result, and a URL whose retries are exhausted (every
attempt times out) or which receives a non-retryable 404 maps to an explicit
`none`.  The embedding is a total function: every exception class is caught
inside `fetch_url`, so no per-URL failure escapes the batch call. -/
theorem fetch_urls_batch_contract (oracles : String → Nat → FetchEvent)
    (urls : List String) (retry_attempts : Nat) (backoff_base : ℚ) :
    ((fetch_urls_batch oracles urls retry_attempts backoff_base).map Prod.fst).Nodup ∧
    (∀ u, u ∈ (fetch_urls_batch oracles urls retry_attempts backoff_base).map Prod.fst
      ↔ u ∈ urls) ∧
    (∀ u, u ∈ urls →
      (fetch_urls_batch oracles urls retry_attempts backoff_base).lookup u
        = some (fetch_url (oracles u) retry_attempts backoff_base).result) ∧
    (∀ u, u ∈ urls → (∀ a, oracles u a = .timedOut) →
      (fetch_urls_batch oracles urls retry_attempts backoff_base).lookup u = some none) ∧
    (∀ u body, u ∈ urls → oracles u 0 = .status 404 body →
      (fetch_urls_batch oracles urls retry_attempts backoff_base).lookup u = some none) := by
  rcases fetch_urls_batch_fold oracles retry_attempts backoff_base urls []
      (by simp) (by simp) with ⟨h1, h2, h3⟩
  have hmem : ∀ u, u ∈ (fetch_urls_batch oracles urls retry_attempts backoff_base).map
      Prod.fst ↔ u ∈ urls := by
    intro u
    rw [fetch_urls_batch, h2 u]
    simp
  have hlook : ∀ u, u ∈ urls →
      (fetch_urls_batch oracles urls retry_attempts backoff_base).lookup u
        = some (fetch_url (oracles u) retry_attempts backoff_base).result := by
    intro u hu
    exact lookup_of_values (fun x => (fetch_url (oracles x) retry_attempts backoff_base).result)
      _ u h3 ((hmem u).mpr hu)
  refine ⟨h1, hmem, hlook, ?_, ?_⟩
  · intro u hu hto
    rw [hlook u hu, fetch_url,
      fetch_url_result_none_of_timedOut (oracles u) hto retry_attempts backoff_base]
  · intro u body hu h404
    rw [hlook u hu, fetch_url_result_none_of_404 (oracles u) body h404]

/-- C3: `generate_embeddings_batch` returns exactly one slot per input text in
submitted order: the output length equals the input length and the slot at
global index `k * batch_size + j` is slot `j` of batch `k`'s own
`process_batch` result, so each batch's slots depend only on that batch's own
service events (other batches are unaffected by a failing batch).  An empty or
whitespace-only text yields `none` in its slot, every text list submitted to
the service contains only non-blank texts, and a batch whose attempts all fail
(retries exhausted) yields `none` in every slot of that batch only.  The
embedding is a total function: every service exception class is handled, so no
partial batch failure raises. -/
theorem generate_embeddings_batch_contract (api : Nat → Nat → EmbedEvent)
    (max_retries batch_size : Nat) (texts : List String) (hbs : 0 < batch_size) :
    ((generate_embeddings_batch api max_retries batch_size texts).1).length
        = texts.length ∧
    (∀ k j, j < batch_size → k * batch_size + j < texts.length →
      ((generate_embeddings_batch api max_retries batch_size
          texts).1)[k * batch_size + j]?
        = ((process_batch (api (k * batch_size)) max_retries
            ((texts.drop (k * batch_size)).take batch_size)).1)[j]?) ∧
    (∀ i (hi : i < texts.length), (texts[i]).trim = "" →
      ((generate_embeddings_batch api max_retries batch_size texts).1)[i]?
        = some none) ∧
    (∀ call ∈ (generate_embeddings_batch api max_retries batch_size texts).2,
      ∀ t ∈ call, t.trim ≠ "") ∧
    (∀ k, (∀ a, a < max_retries → ∀ vectors, api (k * batch_size) a ≠ .success vectors) →
      ∀ j, j < batch_size → k * batch_size + j < texts.length →
        ((generate_embeddings_batch api max_retries batch_size
            texts).1)[k * batch_size + j]? = some none) := by
  have hloc : ∀ k j, j < batch_size → k * batch_size + j < texts.length →
      ((generate_embeddings_batch api max_retries batch_size
          texts).1)[k * batch_size + j]?
        = ((process_batch (api (k * batch_size)) max_retries
            ((texts.drop (k * batch_size)).take batch_size)).1)[j]? := by
    intro k j hj hl
    have h := gen_go_slots api max_retries batch_size hbs k texts texts.length 0 j hj hl
      le_rfl
    simpa using h
  refine ⟨gen_go_length api max_retries batch_size hbs texts.length 0 texts le_rfl,
    hloc, ?_, ?_, ?_⟩
  · intro i hi hblank
    have hj : i % batch_size < batch_size := Nat.mod_lt i hbs
    have hdecomp : (i / batch_size) * batch_size + i % batch_size = i := by
      rw [Nat.mul_comm]
      exact Nat.div_add_mod i batch_size
    have hl : (i / batch_size) * batch_size + i % batch_size < texts.length := by
      rw [hdecomp]; exact hi
    have h := hloc (i / batch_size) (i % batch_size) hj hl
    rw [hdecomp] at h
    rw [h]
    apply process_batch_empty_slot _ _ _ _ (texts[i]) _ hblank
    rw [List.getElem?_take, if_pos hj, List.getElem?_drop, hdecomp]
    exact List.getElem?_eq_getElem hi
  · intro call hc
    exact gen_go_sent api max_retries batch_size texts.length 0 texts call hc
  · intro k hfail j hj hl
    rw [hloc k j hj hl, process_batch_exhausted _ _ _ hfail, List.getElem?_replicate,
      if_pos]
    rw [List.length_take, List.length_drop]
    have hkb : (k + 1) * batch_size = k * batch_size + batch_size := by ring
    omega

/-- Witness for C3 at a concrete input: three texts (the middle one blank),
batch size 2, a service that always rate-limits. -/
theorem generate_embeddings_batch_contract_witness :
    ((0 : Nat) < 2) ∧
    (((generate_embeddings_batch (fun _ _ => EmbedEvent.rateLimited) 3 2
        ["doc-a", "", "doc-b"]).1).length = (["doc-a", "", "doc-b"] : List String).length ∧
    (∀ k j, j < 2 → k * 2 + j < (["doc-a", "", "doc-b"] : List String).length →
      ((generate_embeddings_batch (fun _ _ => EmbedEvent.rateLimited) 3 2
          ["doc-a", "", "doc-b"]).1)[k * 2 + j]?
        = ((process_batch ((fun _ _ => EmbedEvent.rateLimited) (k * 2)) 3
            (((["doc-a", "", "doc-b"] : List String).drop (k * 2)).take 2)).1)[j]?) ∧
    (∀ i (hi : i < (["doc-a", "", "doc-b"] : List String).length),
      ((["doc-a", "", "doc-b"] : List String)[i]).trim = "" →
      ((generate_embeddings_batch (fun _ _ => EmbedEvent.rateLimited) 3 2
          ["doc-a", "", "doc-b"]).1)[i]? = some none) ∧
    (∀ call ∈ (generate_embeddings_batch (fun _ _ => EmbedEvent.rateLimited) 3 2
        ["doc-a", "", "doc-b"]).2, ∀ t ∈ call, t.trim ≠ "") ∧
    (∀ k, (∀ a, a < 3 → ∀ vectors,
        (fun _ _ => EmbedEvent.rateLimited) (k * 2) a ≠ .success vectors) →
      ∀ j, j < 2 → k * 2 + j < (["doc-a", "", "doc-b"] : List String).length →
        ((generate_embeddings_batch (fun _ _ => EmbedEvent.rateLimited) 3 2
            ["doc-a", "", "doc-b"]).1)[k * 2 + j]? = some none)) :=
  ⟨by norm_num,
   generate_embeddings_batch_contract (fun _ _ => EmbedEvent.rateLimited) 3 2
     ["doc-a", "", "doc-b"] (by norm_num)⟩

/-- Witness for C2 at a concrete input: two URLs, one always timing out, one
receiving an immediate 404. -/
theorem fetch_urls_batch_contract_witness :
    ("url-a" ∈ (["url-a", "url-bad"] : List String) ∧
      (∀ a, mixedOracles "url-a" a = .timedOut)) ∧
    ("url-bad" ∈ (["url-a", "url-bad"] : List String) ∧
      mixedOracles "url-bad" 0 = .status 404 "") ∧
    (fetch_urls_batch mixedOracles ["url-a", "url-bad"] 3 2).lookup "url-a" = some none ∧
    (fetch_urls_batch mixedOracles ["url-a", "url-bad"] 3 2).lookup "url-bad" = some none := by
  have hc := fetch_urls_batch_contract mixedOracles ["url-a", "url-bad"] 3 2
  have ha : ∀ a, mixedOracles "url-a" a = .timedOut := by
    intro a
    simp [mixedOracles]
  have hb : mixedOracles "url-bad" 0 = .status 404 "" := by
    simp [mixedOracles]
  exact ⟨⟨by simp, ha⟩, ⟨by simp, hb⟩,
    hc.2.2.2.1 "url-a" (by simp) ha,
    hc.2.2.2.2 "url-bad" "" (by simp) hb⟩

/-- C5 (amended): within one `fetch_url` call, HTTP 200 returns the body at
once ending the loop (one attempt, no waits); a 4xx other than 429 returns
`none` at once without further attempts; an observed 429 sleeps
`min(base^(attempt+2), 60)` while an observed 5xx (with attempts remaining)
sleeps `min(base^attempt, 60)`; the 429 wait is at least the 5xx wait and is
strictly longer whenever the 5xx wait is below the 60-second cap (for a
backoff base above 1); both waits are capped at 60 seconds.  When both waits
reach the cap they are equal, so "strictly longer at every attempt" does not
hold — see the counterexample. -/
theorem fetch_url_retry_policy (oracle : Nat → FetchEvent) (retry_attempts : Nat)
    (backoff_base : ℚ) (attempt fuel : Nat) :
    (∀ body, oracle attempt = .status 200 body →
      fetch_url_go oracle retry_attempts backoff_base attempt (fuel + 1)
        = ⟨some body, [], 1⟩) ∧
    (∀ code body, oracle attempt = .status code body →
      400 ≤ code → code < 500 → code ≠ 429 →
      fetch_url_go oracle retry_attempts backoff_base attempt (fuel + 1) = ⟨none, [], 1⟩) ∧
    (∀ body, oracle attempt = .status 429 body →
      ∃ rest, (fetch_url_go oracle retry_attempts backoff_base attempt (fuel + 1)).waits
        = rateLimitWait backoff_base attempt :: rest) ∧
    (∀ code body, oracle attempt = .status code body → 500 ≤ code →
      attempt < retry_attempts - 1 →
      ∃ rest, (fetch_url_go oracle retry_attempts backoff_base attempt (fuel + 1)).waits
        = serverErrorWait backoff_base attempt :: rest) ∧
    (1 < backoff_base →
      serverErrorWait backoff_base attempt ≤ rateLimitWait backoff_base attempt) ∧
    (1 < backoff_base → backoff_base ^ attempt < MAX_RETRY_WAIT →
      serverErrorWait backoff_base attempt < rateLimitWait backoff_base attempt) ∧
    rateLimitWait backoff_base attempt ≤ MAX_RETRY_WAIT ∧
    serverErrorWait backoff_base attempt ≤ MAX_RETRY_WAIT := by
  refine ⟨?_, ?_, ?_, ?_, ?_, ?_, min_le_right _ _, min_le_right _ _⟩
  · intro body h
    simp [fetch_url_go, h]
  · intro code body h h400 h500 h429
    have h200 : ¬ code = 200 := by omega
    have h500' : ¬ 500 ≤ code := by omega
    simp [fetch_url_go, h, h200, h429, h500']
  · intro body h
    refine ⟨(fetch_url_go oracle retry_attempts backoff_base (attempt + 1) fuel).waits, ?_⟩
    simp [fetch_url_go, h]
  · intro code body h h500 hlt
    have h200 : ¬ code = 200 := by omega
    have h429 : ¬ code = 429 := by omega
    refine ⟨(fetch_url_go oracle retry_attempts backoff_base (attempt + 1) fuel).waits, ?_⟩
    simp [fetch_url_go, h, h200, h429, h500, hlt]
  · intro hb
    exact min_le_min (pow_le_pow_right₀ (le_of_lt hb) (by omega)) le_rfl
  · intro hb hcap
    rw [serverErrorWait, min_eq_left hcap.le, rateLimitWait]
    rw [lt_min_iff]
    exact ⟨pow_lt_pow_right₀ hb (by omega), hcap⟩

/-- Witness for C5 at a concrete input: a run observing 429 at attempt 0 with
base 2 sleeps the 429 backoff first, and at attempt 0 the 5xx wait 1 is
strictly below the 429 wait 4. -/
theorem fetch_url_retry_policy_witness :
    (always429 0 = .status 429 "") ∧
    (∃ rest, (fetch_url_go always429 3 2 0 3).waits = rateLimitWait 2 0 :: rest) ∧
    ((1 : ℚ) < 2) ∧ ((2 : ℚ) ^ (0 : Nat) < MAX_RETRY_WAIT) ∧
    serverErrorWait 2 0 < rateLimitWait 2 0 := by
  have h := fetch_url_retry_policy always429 3 2 0 2
  have hb : (1 : ℚ) < 2 := by norm_num
  have hcap : (2 : ℚ) ^ (0 : Nat) < MAX_RETRY_WAIT := by norm_num [MAX_RETRY_WAIT]
  exact ⟨rfl, h.2.2.1 "" rfl, hb, hcap, h.2.2.2.2.2.1 hb hcap⟩

/-- C5 counterexample: with the default base 2 and 8 retry attempts, at
attempt 6 the 429 wait `min(2^8, 60)` and the 5xx wait `min(2^6, 60)` are both
capped to 60 seconds, so the 429 backoff is NOT strictly longer than the 5xx
backoff at that attempt. -/
theorem fetch_url_429_wait_not_strictly_longer :
    (fetch_url always429 8 2).waits.getD 6 0 = 60 ∧
    (fetch_url always500 8 2).waits.getD 6 0 = 60 ∧
    ¬ ((fetch_url always500 8 2).waits.getD 6 0
        < (fetch_url always429 8 2).waits.getD 6 0) := by
  have h429 : (fetch_url always429 8 2).waits.getD 6 0 = 60 := by
    simp [fetch_url, fetch_url_go, always429, rateLimitWait, MAX_RETRY_WAIT]
    norm_num [min_def]
  have h500 : (fetch_url always500 8 2).waits.getD 6 0 = 60 := by
    simp [fetch_url, fetch_url_go, always500, serverErrorWait, MAX_RETRY_WAIT]
    norm_num [min_def]
  refine ⟨h429, h500, ?_⟩
  rw [h429, h500]
  exact lt_irrefl 60

/-- C4: for every `gaps` table state and every valid result of the
`detect_missing_pages` query (scores ascending, deduplicated), the function
returns at most one record per competitor URL, and each reported URL carries
the lowest similarity score among all `missing_content` rows for that URL
below the threshold. -/
theorem detect_missing_pages_dedup_worst (table : List GapsTableRow) (threshold : ℚ)
    (rows : List MissingContentRow)
    (h : isMissingPagesQueryResult table threshold rows) :
    ((detect_missing_pages rows).map (fun g => g.competitor_url)).Nodup ∧
    (∀ g ∈ detect_missing_pages rows,
      (∃ gr ∈ table, gr.gap_type = "missing_content" ∧
        gr.competitor_url = g.competitor_url ∧
        gr.similarity_score = some g.similarity_score ∧
        g.similarity_score < threshold) ∧
      (∀ gr ∈ table, gr.gap_type = "missing_content" →
        gr.competitor_url = g.competitor_url →
        ∀ s, gr.similarity_score = some s → s < threshold →
          g.similarity_score ≤ s)) := by
  rcases h with ⟨-, hsorted, hiff⟩
  rcases detect_missing_pages_loop_spec rows [] hsorted with ⟨h1, -, h3, h4⟩
  refine ⟨h1, ?_⟩
  intro g hg
  constructor
  · rcases h3 g hg with ⟨r, hr, hurl, hscore, -⟩
    rcases (hiff r).mp hr with ⟨gr, hgr, hproj⟩
    rcases hproj with ⟨htype, hgscore, hlt, hrurl, -⟩
    refine ⟨gr, hgr, htype, ?_, ?_, ?_⟩
    · rw [← hrurl, hurl]
    · rw [hgscore, hscore]
    · rw [← hscore]; exact hlt
  · intro gr hgr htype hurl s hscore hlt
    have hr : MissingContentRow.mk gr.competitor_url gr.closest_match_url s ∈ rows :=
      (hiff _).mpr ⟨gr, hgr, htype, hscore, hlt, rfl, rfl⟩
    exact h4 g hg _ hr hurl

/-- Witness for C4 at a concrete input: the single-row table `gapsTableMedium`
with its query result at the configured threshold. -/
theorem detect_missing_pages_dedup_worst_witness :
    isMissingPagesQueryResult gapsTableMedium
      (get_all_gaps_similarity_threshold bandOverrideConfig) missingRowsMedium ∧
    (((detect_missing_pages missingRowsMedium).map (fun g => g.competitor_url)).Nodup ∧
    (∀ g ∈ detect_missing_pages missingRowsMedium,
      (∃ gr ∈ gapsTableMedium, gr.gap_type = "missing_content" ∧
        gr.competitor_url = g.competitor_url ∧
        gr.similarity_score = some g.similarity_score ∧
        g.similarity_score < get_all_gaps_similarity_threshold bandOverrideConfig) ∧
      (∀ gr ∈ gapsTableMedium, gr.gap_type = "missing_content" →
        gr.competitor_url = g.competitor_url →
        ∀ s, gr.similarity_score = some s →
          s < get_all_gaps_similarity_threshold bandOverrideConfig →
          g.similarity_score ≤ s))) :=
  ⟨missingRowsMedium_query,
   detect_missing_pages_dedup_worst gapsTableMedium
     (get_all_gaps_similarity_threshold bandOverrideConfig) missingRowsMedium
     missingRowsMedium_query⟩

/-- C6 (amended): for every configuration and every valid query result at the
configured similarity threshold, each missing-page gap's priority follows the
banding score < 0.2 high, score < 0.35 medium, otherwise low.  The two band
limits are hardcoded literals in `detect_missing_pages`: they do not vary
with the configuration (which is read only for the similarity threshold) —
see the counterexample for the claim's configurability half. -/
theorem missing_page_priority_banding (config : List (String × ℚ))
    (table : List GapsTableRow) (rows : List MissingContentRow)
    (_h : isMissingPagesQueryResult table
      (get_all_gaps_similarity_threshold config) rows) :
    ∀ g ∈ detect_missing_pages rows,
      g.priority = (if g.similarity_score < 0.2 then "high"
        else if g.similarity_score < 0.35 then "medium" else "low") := by
  intro g hg
  rw [detect_missing_pages_loop_priority rows [] g hg, missingPagePriority]

/-- Witness for C6 at a concrete input: the score-0.3 row is reported with
priority "medium". -/
theorem missing_page_priority_banding_witness :
    isMissingPagesQueryResult gapsTableMedium
      (get_all_gaps_similarity_threshold bandOverrideConfig) missingRowsMedium ∧
    (∀ g ∈ detect_missing_pages missingRowsMedium,
      g.priority = (if g.similarity_score < 0.2 then "high"
        else if g.similarity_score < 0.35 then "medium" else "low")) :=
  ⟨missingRowsMedium_query,
   missing_page_priority_banding bandOverrideConfig gapsTableMedium missingRowsMedium
     missingRowsMedium_query⟩

/-- C6 counterexample: a configuration demanding a high band at 0.5 is
ignored — the row with score 0.3 (below that demanded band, so "high" under
the claim) is still reported "medium", because the 0.2/0.35 band limits are
hardcoded in `detect_missing_pages` and `get_all_gaps` only reads
`similarity_threshold` from the configuration. -/
theorem priority_band_config_ignored :
    get_all_gaps_similarity_threshold bandOverrideConfig = 0.45 ∧
    config_get bandOverrideConfig "priority_high_band" 0.2 = 0.5 ∧
    (0.3 : ℚ) < config_get bandOverrideConfig "priority_high_band" 0.2 ∧
    isMissingPagesQueryResult gapsTableMedium
      (get_all_gaps_similarity_threshold bandOverrideConfig) missingRowsMedium ∧
    (detect_missing_pages missingRowsMedium).map (fun g => g.priority) = ["medium"] ∧
    (detect_missing_pages missingRowsMedium).map (fun g => g.similarity_score) = [0.3] := by
  have hband : config_get bandOverrideConfig "priority_high_band" 0.2 = 0.5 := by
    simp [config_get, bandOverrideConfig, List.lookup]
  refine ⟨?_, hband, ?_, missingRowsMedium_query, ?_, ?_⟩
  · simp [get_all_gaps_similarity_threshold, config_get, bandOverrideConfig, List.lookup]
  · rw [hband]; norm_num
  · simp [detect_missing_pages, detect_missing_pages_loop, missingRowsMedium,
      missingPagePriority, show ¬ (0.3 : ℚ) < 0.2 by norm_num,
      show (0.3 : ℚ) < 0.35 by norm_num]
  · simp [detect_missing_pages, detect_missing_pages_loop, missingRowsMedium]

/-- C10: for every `pages` table state and valid metadata-query result,
`detect_metadata_gaps` returns a (necessarily empty) gap list when no primary
page has a NULL title, description or h1; as soon as at least one primary
page has any of those fields NULL, the loop's first iteration reads the
undefined name `seen_urls` and the call raises `NameError` instead of
returning metadata gap records. -/
theorem detect_metadata_gaps_name_error (pages : List PageRow) (rows : List MetadataRow)
    (h : isMetadataQueryResult pages rows) :
    ((¬ ∃ p ∈ pages, metadataQualifies p) → detect_metadata_gaps rows = .ok []) ∧
    ((∃ p ∈ pages, metadataQualifies p) →
      detect_metadata_gaps rows
        = .error "NameError: name seen_urls is not defined") := by
  rcases h with ⟨-, -, hiff⟩
  constructor
  · intro hnone
    cases hrows : rows with
    | nil => rfl
    | cons r rest =>
      exfalso
      rcases (hiff r).mp (by rw [hrows]; exact List.mem_cons_self r rest) with
        ⟨p, hp, hq, -⟩
      exact hnone ⟨p, hp, hq⟩
  · rintro ⟨p, hp, hq⟩
    have hmem : MetadataRow.mk p.url p.title p.description p.h1 ∈ rows :=
      (hiff _).mpr ⟨p, hp, hq, rfl⟩
    cases hrows : rows with
    | nil => rw [hrows] at hmem; simp at hmem
    | cons r rest => rfl

/-- Witness for C10 at a concrete input: one primary page missing its title
makes the call raise. -/
theorem detect_metadata_gaps_name_error_witness :
    isMetadataQueryResult pagesExample metadataRowsExample ∧
    (∃ p ∈ pagesExample, metadataQualifies p) ∧
    detect_metadata_gaps metadataRowsExample
      = .error "NameError: name seen_urls is not defined" := by
  have hq : isMetadataQueryResult pagesExample metadataRowsExample := by
    refine ⟨by simp [metadataRowsExample], by simp [metadataRowsExample], ?_⟩
    intro r
    constructor
    · intro hr
      rcases List.mem_singleton.mp (by simpa [metadataRowsExample] using hr) with rfl
      refine ⟨{ url := "page-u", title := none, description := some "d",
                h1 := some "h", is_primary := true }, by simp [pagesExample], ?_, rfl⟩
      exact ⟨rfl, Or.inl rfl⟩
    · rintro ⟨p, hp, -, rfl⟩
      rcases List.mem_singleton.mp (by simpa [pagesExample] using hp) with rfl
      simp [metadataRowsExample]
  have hex : ∃ p ∈ pagesExample, metadataQualifies p := by
    refine ⟨{ url := "page-u", title := none, description := some "d",
              h1 := some "h", is_primary := true }, by simp [pagesExample], rfl, Or.inl rfl⟩
  exact ⟨hq, hex, (detect_metadata_gaps_name_error pagesExample metadataRowsExample hq).2 hex⟩

/-- C8 (amended): every vector the engine returns equals the raw service vector
divided by its L2 norm plus EPSILON = 1e-10 (both `generate_embedding` and
`process_batch` apply `normalizeEmbedding`).  For a raw vector of positive
norm N the returned norm is N/(N+eps), which differs from 1 by exactly
eps/(N+eps), at most eps/N — unit within tolerance whenever N is not within a
few orders of magnitude of eps.  For raw vectors of tiny norm the unit-norm
property fails (see the counterexample), so the universal claim is amended to
vectors of positive norm with the explicit deviation bound. -/
theorem normalizeEmbedding_unit_norm (v : List ℝ) (h : 0 < l2Norm v) :
    normalizeEmbedding v = v.map (fun x => x / (l2Norm v + EPSILON)) ∧
    l2Norm (normalizeEmbedding v) = l2Norm v / (l2Norm v + EPSILON) ∧
    |1 - l2Norm (normalizeEmbedding v)| = EPSILON / (l2Norm v + EPSILON) ∧
    |1 - l2Norm (normalizeEmbedding v)| ≤ EPSILON / l2Norm v := by
  have hd : 0 < l2Norm v + EPSILON := add_pos h EPSILON_pos
  have hnorm : l2Norm (normalizeEmbedding v) = l2Norm v / (l2Norm v + EPSILON) :=
    l2Norm_map_div v (l2Norm v + EPSILON) hd
  have hsub : 1 - l2Norm v / (l2Norm v + EPSILON) = EPSILON / (l2Norm v + EPSILON) := by
    field_simp
  have habs : |1 - l2Norm (normalizeEmbedding v)| = EPSILON / (l2Norm v + EPSILON) := by
    rw [hnorm, hsub]
    exact abs_of_nonneg (div_nonneg EPSILON_pos.le hd.le)
  refine ⟨rfl, hnorm, habs, ?_⟩
  rw [habs]
  apply div_le_div_of_nonneg_left EPSILON_pos.le h
  linarith [EPSILON_pos]

/-- Witness for C8 at a concrete input: the vector [3, 4] has norm 5, and its
normalization has norm 5/(5+eps), within eps/5 of 1. -/
theorem normalizeEmbedding_unit_norm_witness :
    (0 < l2Norm [(3 : ℝ), 4]) ∧
    (normalizeEmbedding [(3 : ℝ), 4]
        = [(3 : ℝ), 4].map (fun x => x / (l2Norm [(3 : ℝ), 4] + EPSILON)) ∧
      l2Norm (normalizeEmbedding [(3 : ℝ), 4])
        = l2Norm [(3 : ℝ), 4] / (l2Norm [(3 : ℝ), 4] + EPSILON) ∧
      |1 - l2Norm (normalizeEmbedding [(3 : ℝ), 4])|
        = EPSILON / (l2Norm [(3 : ℝ), 4] + EPSILON) ∧
      |1 - l2Norm (normalizeEmbedding [(3 : ℝ), 4])| ≤ EPSILON / l2Norm [(3 : ℝ), 4]) := by
  have h5 : l2Norm [(3 : ℝ), 4] = 5 := by
    unfold l2Norm
    rw [show (([(3 : ℝ), 4].map (fun x => x ^ 2)).sum : ℝ) = 5 ^ 2 by norm_num,
      Real.sqrt_sq (by norm_num)]
  have hpos : 0 < l2Norm [(3 : ℝ), 4] := by rw [h5]; norm_num
  exact ⟨hpos, normalizeEmbedding_unit_norm [(3 : ℝ), 4] hpos⟩

/-- C8 counterexample: the raw vector [1e-10] (norm equal to EPSILON) is mapped
to [1/2], whose L2 norm 1/2 deviates from 1 by 1/2 — far outside any
floating-point tolerance — so "every returned vector has unit L2 norm" is
false as stated. -/
theorem normalizeEmbedding_unit_norm_fails :
    l2Norm (normalizeEmbedding [EPSILON]) = 1 / 2 ∧
    (1 : ℝ) / 4 < |1 - l2Norm (normalizeEmbedding [EPSILON])| := by
  have hN : l2Norm [EPSILON] = EPSILON := by
    unfold l2Norm
    rw [show (([EPSILON].map (fun x => x ^ 2)).sum : ℝ) = EPSILON ^ 2 by simp,
      Real.sqrt_sq EPSILON_pos.le]
  have hd : 0 < l2Norm [EPSILON] + EPSILON := by
    rw [hN]
    linarith [EPSILON_pos]
  have h1 : l2Norm (normalizeEmbedding [EPSILON])
      = EPSILON / (EPSILON + EPSILON) := by
    rw [normalizeEmbedding, l2Norm_map_div [EPSILON] (l2Norm [EPSILON] + EPSILON) hd, hN]
  have h2 : l2Norm (normalizeEmbedding [EPSILON]) = 1 / 2 := by
    rw [h1, ← two_mul]
    field_simp
    rw [mul_comm]
    exact div_self (by linarith [EPSILON_pos] : (0 : ℝ) < 2 * EPSILON).ne'
  refine ⟨h2, ?_⟩
  rw [h2, show (1 : ℝ) - 1 / 2 = 1 / 2 by norm_num, abs_of_pos (by norm_num)]
  norm_num

/-- C7: `chunk_text` (a total function in the embedding, so it never raises)
returns `[]` exactly on empty or whitespace-only input; on the main path the
produced token runs cover the full encoded text — concatenating them with
each run's leading `overlap` tokens removed reconstructs the token sequence
with nothing dropped — and every run is non-empty with at most `chunk_size`
tokens (only the final run may be shorter).  On the word-based fallback path
the word windows likewise cover all words. -/
theorem chunk_text_never_drops (enc : String → List Nat) (dec : List Nat → String)
    (chunk_size overlap : Nat) (text : String) (hov : overlap < chunk_size) :
    (text.trim = "" → chunk_text enc dec chunk_size overlap text = []) ∧
    (text.trim ≠ "" → chunk_text enc dec chunk_size overlap text
        = (chunkTokenRuns chunk_size overlap (enc text)).map dec) ∧
    dropOverlapFlatten overlap (chunkTokenRuns chunk_size overlap (enc text)) = enc text ∧
    (∀ r ∈ chunkTokenRuns chunk_size overlap (enc text),
      r.length ≤ chunk_size ∧ r ≠ []) ∧
    (∀ words : List String, overlap / 4 < chunk_size / 4 →
      dropOverlapFlatten (overlap / 4) (chunkFallbackRuns chunk_size overlap words)
        = words) := by
  refine ⟨?_, ?_, ?_, ?_, ?_⟩
  · intro h
    simp [chunk_text, h]
  · intro h
    simp [chunk_text, h]
  · by_cases hlen0 : (enc text).length = 0
    · have hnil : enc text = [] := List.length_eq_zero.mp hlen0
      rw [chunkTokenRuns, hnil]
      simp [chunk_text_go, dropOverlapFlatten]
    · have hlen : 0 < (enc text).length := Nat.pos_of_ne_zero hlen0
      rcases chunk_text_go_spec chunk_size overlap (enc text) hov
          ((enc text).length + 1) 0 (by omega) hlen with ⟨rs, hgo, hflat⟩
      rw [chunkTokenRuns, hgo, dropOverlapFlatten, hflat, List.drop_zero,
        Nat.zero_add, Nat.sub_zero, List.take_append_drop]
  · intro r hr
    exact chunk_text_go_runs_bounded chunk_size overlap (enc text) (by omega)
      ((enc text).length + 1) 0 r hr
  · intro words hfall
    by_cases hlen0 : words.length = 0
    · have hnil : words = [] := List.length_eq_zero.mp hlen0
      rw [chunkFallbackRuns, hnil]
      simp [chunk_fallback_go, dropOverlapFlatten]
    · have hlen : 0 < words.length := Nat.pos_of_ne_zero hlen0
      have hstep1 : 1 ≤ chunk_size / 4 - overlap / 4 := by omega
      have hstep2 : chunk_size / 4 - overlap / 4 ≤ chunk_size / 4 := by omega
      have how : chunk_size / 4 - (chunk_size / 4 - overlap / 4) = overlap / 4 := by
        omega
      rw [chunkFallbackRuns, chunk_fallback_go, if_pos hlen, dropOverlapFlatten]
      have hspec := chunk_fallback_go_spec (chunk_size / 4)
        (chunk_size / 4 - overlap / 4) words hstep1 hstep2 words.length
        (0 + (chunk_size / 4 - overlap / 4)) (by omega)
      rw [how] at hspec
      rw [hspec]
      have harith2 : 0 + (chunk_size / 4 - overlap / 4) + overlap / 4
          = chunk_size / 4 := by omega
      rw [harith2, List.drop_zero, List.take_append_drop]

/-- Witness for C7 at a concrete input: default parameters 1500/200 on the text
"hello". -/
theorem chunk_text_never_drops_witness :
    ((200 : Nat) < 1500) ∧
    (("hello".trim = "" → chunk_text encExample decExample 1500 200 "hello" = []) ∧
    ("hello".trim ≠ "" → chunk_text encExample decExample 1500 200 "hello"
        = (chunkTokenRuns 1500 200 (encExample "hello")).map decExample) ∧
    dropOverlapFlatten 200 (chunkTokenRuns 1500 200 (encExample "hello"))
      = encExample "hello" ∧
    (∀ r ∈ chunkTokenRuns 1500 200 (encExample "hello"),
      r.length ≤ 1500 ∧ r ≠ []) ∧
    (∀ words : List String, 200 / 4 < 1500 / 4 →
      dropOverlapFlatten (200 / 4) (chunkFallbackRuns 1500 200 words) = words)) :=
  ⟨by norm_num,
   chunk_text_never_drops encExample decExample 1500 200 "hello" (by norm_num)⟩

/-- Witness for C1 at a concrete input: primary set `primaryExample`, competitor
`competitorExample`, threshold 2. -/
theorem find_content_gaps_emission_witness :
    (primaryExample ≠ []) ∧
    (∃ s : ℚ, (primaryExample.map
        (fun p => simProd competitorExample.2.1 p.2.1)).max? = some s ∧
      (find_content_gaps simProd primaryExample [competitorExample] 2 ≠ [] ↔ s < 2) ∧
      (s = 2 → find_content_gaps simProd primaryExample [competitorExample] 2 = []) ∧
      (∀ g ∈ find_content_gaps simProd primaryExample [competitorExample] 2,
        g.similarity_score = s ∧ g.competitor_url = competitorExample.2.2 ∧
        g.gap_type = "missing_content" ∧
        ∃ p ∈ primaryExample,
          simProd competitorExample.2.1 p.2.1 = s ∧ g.closest_match_url = p.2.2) ∧
      (∀ comp : List (Nat × ℚ × String),
        find_content_gaps simProd primaryExample comp 2
          = (comp.map (fun x => find_content_gaps simProd primaryExample [x] 2)).flatten)) :=
  ⟨by simp [primaryExample],
   find_content_gaps_emission simProd primaryExample competitorExample 2
     (by simp [primaryExample])⟩
